import Mathlib

/-!
Verification of the dragonmasher source-ingestion and merge pipeline.

This file shallowly embeds the Python code of `dragonmasher` (the modules
`utils.py`, `data.py` and `sources.py`) into Lean and proves properties of
the embedding.

Python values occurring in the two-level data mappings (a string, or a list
of values) are modelled by the inductive type `PyVal`.  Python dictionaries
are modelled as insertion-ordered association lists with the usual
first-match lookup and replace-in-place update.  Fallible Python code
(indexing that can raise `IndexError`, `int()` conversion, attribute access
on deleted attributes) is modelled with `Option`/`Except`.

The merge functions are embedded twice, at two levels of fidelity:
* a pure, value-level embedding (`update_dict`, `mash`) in which list
  values are ordinary Lean lists; and
* a heap-threaded embedding (`hUpdateDict`, `hMash`) in which Python list
  objects are cells of an explicit heap addressed by `HVal.ref`, so that
  the reference sharing and in-place mutation performed by the Python code
  is observable.
Both are direct translations of `utils.update_dict` and `data.mash`.
-/
/-- A Python value stored in a record: a string, or a list of values. -/
inductive PyVal where
  | str : String → PyVal
  | list : List PyVal → PyVal

mutual

/-- Structural decidable equality on `PyVal`, mirroring Python `==` on
strings and lists (values of different types compare unequal). -/
def PyVal.decEq : (a b : PyVal) → Decidable (a = b)
  | .str a, .str b =>
      if h : a = b then .isTrue (h ▸ rfl)
      else .isFalse (fun he => h (PyVal.str.inj he))
  | .str _, .list _ => .isFalse (fun he => PyVal.noConfusion he)
  | .list _, .str _ => .isFalse (fun he => PyVal.noConfusion he)
  | .list as, .list bs =>
      match PyVal.decEqList as bs with
      | .isTrue h => .isTrue (h ▸ rfl)
      | .isFalse h => .isFalse (fun he => h (PyVal.list.inj he))

/-- Elementwise decidable equality of two lists of `PyVal`. -/
def PyVal.decEqList : (as bs : List PyVal) → Decidable (as = bs)
  | [], [] => .isTrue rfl
  | [], _ :: _ => .isFalse (fun he => List.noConfusion he)
  | _ :: _, [] => .isFalse (fun he => List.noConfusion he)
  | a :: as, b :: bs =>
      match PyVal.decEq a b, PyVal.decEqList as bs with
      | .isTrue h1, .isTrue h2 => .isTrue (h1 ▸ h2 ▸ rfl)
      | .isFalse h1, _ => .isFalse (fun he => h1 (List.cons.inj he).1)
      | _, .isFalse h2 => .isFalse (fun he => h2 (List.cons.inj he).2)

end

instance : DecidableEq PyVal := PyVal.decEq

instance : BEq PyVal := instBEqOfDecidableEq

/-- A record: a Python dict mapping attribute names to values. -/
abbrev PyRecord := List (String × PyVal)

/-- A source dataset: a Python dict mapping lookup keys to records. -/
abbrev PyDataset := List (String × PyRecord)

/-! Association-list operations with Python dict semantics: insertion order
is preserved, lookup finds the first (unique) matching key, assignment to an
existing key replaces the value in place, assignment to a new key appends. -/
/-- Python `k in d`. -/
def containsKey (l : List (String × α)) (k : String) : Bool :=
  l.any (fun kv => kv.1 == k)

/-- Python `d[k]` as a partial lookup (`none` models `KeyError`). -/
def dictGet : List (String × α) → String → Option α
  | [], _ => none
  | (k', v') :: rest, k => if k' = k then some v' else dictGet rest k

/-- Python `d[k] = v`: replace in place if present, else append. -/
def dictSet : List (String × α) → String → α → List (String × α)
  | [], k, v => [(k, v)]
  | (k', v') :: rest, k, v =>
      if k' = k then (k', v) :: rest else (k', v') :: dictSet rest k v

/-- Python `d.setdefault(k, v)` (result dict only). -/
def dictSetdefault (l : List (String × α)) (k : String) (v : α) : List (String × α) :=
  if containsKey l k then l else l ++ [(k, v)]

/-- Python `d.update(other)` for flat dicts. -/
def dictUpdate (d other : List (String × α)) : List (String × α) :=
  other.foldl (fun acc kv => dictSet acc kv.1 kv.2) d

/-- The utility `utils.trim_list(L, excluded)`: keep the items whose index is
not in `excluded`. -/
def trim_list (L : List α) (excluded : List Nat) : List α :=
  ((L.enum).filter (fun p => !(excluded.contains p.1))).map (·.2)

/-! The merge core `utils.update_dict` (value-level embedding). -/
/-- The duplicate test of `utils.update_dict` (lines 66-68):
`(isinstance(dvalue, list) and v in dvalue) or (isinstance(dvalue, str) and v == dvalue)`. -/
def pyIsDup (dvalue v : PyVal) : Bool :=
  match dvalue with
  | .list xs => xs.contains v
  | .str s => v == PyVal.str s

/-- One iteration of the inner loop of `utils.update_dict` (lines 61-75),
acting on the record `d[key]`. -/
def mergeAttr (allow_duplicates : Bool) (rec : PyRecord) (kv : String × PyVal) : PyRecord :=
  match dictGet rec kv.1 with
  | none => dictSet rec kv.1 kv.2
  | some dvalue =>
    if pyIsDup dvalue kv.2 && !allow_duplicates then rec
    else
      let base := match dvalue with
        | .list xs => xs
        | x => [x]
      let newv := match kv.2 with
        | .list ys => base ++ ys
        | y => base ++ [y]
      dictSet rec kv.1 (.list newv)

/-- One iteration of the outer loop of `utils.update_dict` (lines 50-75),
for a single `(key, value)` pair of `other`.  In this typed embedding the
second-level values of `other` are always records (dicts), so the
`isinstance(value, dict)` test of line 56 is always true. -/
def updateEntry (allow_duplicates annotate : Bool) (d : PyDataset)
    (kv : String × PyRecord) : PyDataset :=
  let key := kv.1
  let value := kv.2
  if !containsKey d key && annotate then d
  else
    let d := dictSetdefault d key []
    let dk := (dictGet d key).getD []
    let overlap := dk.any (fun a => containsKey value a.1)
    if !overlap then dictSet d key (dictUpdate dk value)
    else dictSet d key (value.foldl (mergeAttr allow_duplicates) dk)

/-- The function `utils.update_dict(d, other, allow_duplicates, annotate)`,
returning the updated `d`. -/
def update_dict (d other : PyDataset) (allow_duplicates annotate : Bool) : PyDataset :=
  other.foldl (updateEntry allow_duplicates annotate) d

/-! The top-level merge `data.mash` (value-level embedding). -/
/-- An argument passed to `data.mash`: a raw dict, a `BaseSource` instance
(of which `mash` uses the `data` attribute), or a value of any other type. -/
inductive MashArg where
  | dict : PyDataset → MashArg
  | source : PyDataset → MashArg
  | other : MashArg
deriving DecidableEq

/-- The dataset `mash` merges for an argument (`arg.data` for sources). -/
def MashArg.toData : MashArg → PyDataset
  | .dict d => d
  | .source d => d
  | .other => []

/-- The outcome of a call to `data.mash`.  Note that on fewer than two
arguments `mash` executes `return ValueError(...)` (data.py line 23), i.e.
it returns a `ValueError` instance as an ordinary value; this normal return
is modelled by `valueErrorObject`.  The type check of lines 24-26 by
contrast raises (`typeErrorRaised`). -/
inductive MashResult where
  | val : PyDataset → MashResult
  | valueErrorObject : String → MashResult
  | typeErrorRaised : String → MashResult
deriving DecidableEq

/-- The function `data.mash(*args, annotate=...)`. -/
def mash (args : List MashArg) (annotate : Bool) : MashResult :=
  if args.length < 2 then
    .valueErrorObject "mash expects at least 2 data sources."
  else if args.any (fun a => match a with | .other => true | _ => false) then
    .typeErrorRaised "arguments must be of type dict or BaseSource."
  else
    let step := fun (st : PyDataset × Bool) (arg : MashArg) =>
      (update_dict st.1 arg.toData false (if st.2 then false else annotate), false)
    .val (args.foldl step ([], true)).1

/-- A value is a Python string (as opposed to a list). -/
def PyVal.isStr : PyVal → Bool
  | .str _ => true
  | .list _ => false

namespace BaseSource

/-! The read loop `BaseSource.read` (sources.py lines 71-84).  Reading a
file may fail (`Except.error` models a raised exception) or yield no
contents (`Option.none` models the whitelist returning `None`); processing
merges each file's data into `self.data` with `update_dict`'s defaults.  A
raised exception propagates with the instance's `data` attribute in
whatever state the loop left it, which the `Except.error` payload records. -/
/-- The loop of `BaseSource.read`: for each file, `read_file` then
`process_file` then `update_dict(self.data, data)`.  On a raised read
error the current (possibly partially updated) `data` is what the instance
is left holding. -/
def read (readFile : F → Except String (Option String))
    (processFile : F → String → PyDataset) :
    PyDataset → List F → Except (String × PyDataset) PyDataset
  | data, [] => .ok data
  | data, f :: rest =>
    match readFile f with
    | .error e => .error (e, data)
    | .ok none => read readFile processFile data rest
    | .ok (some c) =>
        read readFile processFile (update_dict data (processFile f c) false false) rest

end BaseSource

/-- A concrete source whose first file reads fine and whose second file
raises while being read. -/
def cexReadFile : Nat → Except String (Option String) :=
  fun f => if f = 0 then .ok (some "c") else .error "boom"

/-- The per-file parse result of the concrete source. -/
def cexProcessFile : Nat → String → PyDataset :=
  fun _ _ => [("k", [("a", PyVal.str "1")])]

/-! Heap-threaded embedding of `utils.update_dict` and `data.mash`.

Python list values are mutable objects shared by reference.  To make the
reference sharing of the code observable, this second embedding of the same
two source functions stores every list value in a cell of an explicit heap:
a record attribute holds either an immutable string (`HVal.str`) or the
address of a heap cell (`HVal.ref`).  The heap cells hold lists of strings
(the shape of all list values in the merge claims).  `update_dict` appends
to, extends and allocates cells exactly where the Python code mutates or
creates list objects, threading the heap through. -/
/-- A record attribute value in the heap model: a string, or a reference to
a heap-allocated list object. -/
inductive HVal where
  | str : String → HVal
  | ref : Nat → HVal
deriving DecidableEq

/-- The heap: list objects addressed by position. -/
abbrev Heap := List (List String)

/-- A record in the heap model. -/
abbrev HRecord := List (String × HVal)

/-- A dataset in the heap model. -/
abbrev HDataset := List (String × HRecord)

/-- Dereference a heap cell. -/
def heapGet (h : Heap) (a : Nat) : List String := (h.get? a).getD []

/-- Overwrite a heap cell in place. -/
def heapSet (h : Heap) (a : Nat) (v : List String) : Heap := h.set a v

/-- Allocate a fresh list object. -/
def heapAlloc (h : Heap) (v : List String) : Heap × Nat := (h ++ [v], h.length)

/-- The duplicate test of `utils.update_dict` lines 66-68 in the heap model:
`v in dvalue` looks inside the referenced list object (a list is never an
element of a list of strings), `v == dvalue` on strings compares them. -/
def hIsDup (h : Heap) (dvalue v : HVal) : Bool :=
  match dvalue with
  | .ref a =>
      match v with
      | .str s => (heapGet h a).contains s
      | .ref _ => false
  | .str s => v == HVal.str s

/-- One iteration of the inner loop of `utils.update_dict` (lines 61-75) in
the heap model.  Promotion `d[key][k] = [dvalue]` allocates a fresh list
object; `extend`/`append` mutate the (possibly shared) cell in place. -/
def hMergeAttr (allow_duplicates : Bool) (st : Heap × HRecord) (kv : String × HVal) :
    Heap × HRecord :=
  let (h, rec) := st
  match dictGet rec kv.1 with
  | none => (h, dictSet rec kv.1 kv.2)
  | some dvalue =>
    if hIsDup h dvalue kv.2 && !allow_duplicates then (h, rec)
    else
      let (h, rec, addr) :=
        match dvalue with
        | .ref a => (h, rec, a)
        | .str s =>
            let (h, a) := heapAlloc h [s]
            (h, dictSet rec kv.1 (.ref a), a)
      let cell := heapGet h addr
      let cell :=
        match kv.2 with
        | .ref b => cell ++ heapGet h b
        | .str s2 => cell ++ [s2]
      (heapSet h addr cell, rec)

/-- One iteration of the outer loop of `utils.update_dict` in the heap
model. -/
def hUpdateEntry (allow_duplicates annotate : Bool) (st : Heap × HDataset)
    (kv : String × HRecord) : Heap × HDataset :=
  let (h, d) := st
  let key := kv.1
  let value := kv.2
  if !containsKey d key && annotate then (h, d)
  else
    let d := dictSetdefault d key []
    let dk := (dictGet d key).getD []
    let overlap := dk.any (fun a => containsKey value a.1)
    if !overlap then (h, dictSet d key (dictUpdate dk value))
    else
      let (h, rec) := value.foldl (hMergeAttr allow_duplicates) (h, dk)
      (h, dictSet d key rec)

/-- The function `utils.update_dict` in the heap model. -/
def hUpdateDict (h : Heap) (d other : HDataset) (allow_duplicates annotate : Bool) :
    Heap × HDataset :=
  other.foldl (hUpdateEntry allow_duplicates annotate) (h, d)

/-- The outcome of `data.mash` in the heap model. -/
inductive HMashResult where
  | val : Heap → HDataset → HMashResult
  | valueErrorObject : String → HMashResult
deriving DecidableEq

/-- The function `data.mash` in the heap model, on dataset arguments (for
which the `isinstance` check of lines 24-26 passes). -/
def hMash (h : Heap) (args : List HDataset) (annotate : Bool) : HMashResult :=
  if args.length < 2 then
    .valueErrorObject "mash expects at least 2 data sources."
  else
    let step := fun (st : Heap × HDataset × Bool) (arg : HDataset) =>
      let (h, mashed, first) := st
      let (h, mashed) := hUpdateDict h mashed arg false (if first then false else annotate)
      (h, mashed, false)
    let (h, mashed, _) := args.foldl step (h, [], true)
    .val h mashed

/-- The first input dataset of the C8 scenario: `A = {'k': {'a': L}}` where
`L` is the list object `['x']` held in heap cell 0. -/
def c8A : HDataset := [("k", [("a", HVal.ref 0)])]

/-- The second input dataset of the C8 scenario: `B = {'k': {'a': 'y'}}`. -/
def c8B : HDataset := [("k", [("a", HVal.str "y")])]

namespace CSVMixin

/-! Row acceptance of the delimited-text parsers. -/
/-- The method `CSVMixin.process_row(row, comments)` (sources.py lines
440-444): a row is rejected when the first character of its first field is
a comment marker.  The lookup `row[0][0]` raises `IndexError` (modelled by
the outer `none`) when the row is empty or its first field is the empty
string; `some none` models a skipped row, `some (some row)` an accepted
one. -/
def process_row (row : List String) (comments : List String) :
    Option (Option (List String)) :=
  match row with
  | [] => none
  | f :: _ =>
    match f.data with
    | [] => none
    | c :: _ =>
        some (if comments.contains (String.singleton c) then none else some row)

end CSVMixin

namespace LWCWords

/-- The method `LWCWords.process_row(row, comments)` (sources.py lines
1089-1096).  The CJK-ideograph test on `row[1]` (`re.search` over
`zhon.hanzi.cjk_ideographs`, an external constant) is abstracted as the
predicate `hasCJK`; the lookup `row[1]` itself can also raise when the row
has fewer than two fields. -/
def process_row (hasCJK : String → Bool) (row : List String)
    (comments : List String) : Option (Option (List String)) :=
  match row with
  | [] => none
  | f :: _ =>
    match f.data with
    | [] => none
    | c :: _ =>
        if comments.contains (String.singleton c) then some none
        else
          match row.get? 1 with
          | none => none
          | some w => some (if hasCJK w then some row else none)

end LWCWords

/-! The remote-source lifecycle relevant to forced downloads
(`BaseRemoteSource`, sources.py lines 153-259). -/
/-- A raised Python exception in the remote-source model. -/
inductive PyErr where
  | attributeError
  | keyError
deriving DecidableEq

/-- The external cache (`TimeoutShelf` over a `FileCache`), reduced to the
keyed mapping the code uses: `setdefault`, deletion and `sync`. -/
structure PyCache where
  entries : List (String × PyDataset)
deriving DecidableEq

/-- Python `cache.setdefault(name, {})`. -/
def PyCache.setdefault (c : PyCache) (k : String) : PyCache × PyDataset :=
  match dictGet c.entries k with
  | some v => (c, v)
  | none => (⟨c.entries ++ [(k, [])]⟩, [])

/-- Python `del cache[name]` (raises `KeyError` when absent). -/
def PyCache.delete (c : PyCache) (k : String) : Option PyCache :=
  if containsKey c.entries k then
    some ⟨c.entries.filter (fun kv => !(kv.1 == k))⟩
  else none

/-- The attribute state of a `BaseRemoteSource` instance.  Attributes that
the code can leave unset or delete (`cache`, set only by `_init_cache` when
`cache_data` is true; `data`, deleted by `_reset_cache`) are `Option`s whose
`none` means the attribute is absent, so that access raises
`AttributeError`. -/
structure RemoteSource where
  name : String
  cache_data : Bool
  temp_dir : Option String
  cache : Option PyCache
  data : Option PyDataset
  files : Option (List String)
deriving DecidableEq

namespace RemoteSource

/-- Construction `BaseRemoteSource.__init__(cache_data, ...)` followed by
`BaseSource.__init__`: `cache` is only created (by `_init_cache`) when
`cache_data` is true, in which case `data` comes from
`cache.setdefault(name, {})`; otherwise `data` is set to `{}` and `cache`
is never set. -/
def init (name : String) (cache_data : Bool) (c0 : PyCache) : RemoteSource :=
  if cache_data then
    let (c, d) := c0.setdefault name
    { name := name, cache_data := cache_data, temp_dir := none,
      cache := some c, data := some d, files := none }
  else
    { name := name, cache_data := cache_data, temp_dir := none,
      cache := none, data := some [], files := none }

/-- The method `BaseRemoteSource._reset_cache` (sources.py lines 193-198):
`del self.data`; `del self.cache[self.name]`; `self.cache.sync()`;
`self.data = self.cache.setdefault(self.name, {})`.  Accessing `self.cache`
when it was never set raises `AttributeError`. -/
def reset_cache (s : RemoteSource) : Except PyErr RemoteSource :=
  match s.data with
  | none => .error .attributeError
  | some _ =>
    let s := { s with data := none }
    match s.cache with
    | none => .error .attributeError
    | some c =>
      match c.delete s.name with
      | none => .error .keyError
      | some c =>
        let (c, d) := c.setdefault s.name
        .ok { s with cache := some c, data := some d }

/-- The property `BaseRemoteSource.has_data` (`bool(self.data)`). -/
def has_data (s : RemoteSource) : Except PyErr Bool :=
  match s.data with
  | none => .error .attributeError
  | some d => .ok (!d.isEmpty)

/-- The property `BaseRemoteSource.has_files` (`bool(self.files)`; the
`files` attribute always exists, holding `None` or a tuple). -/
def has_files (s : RemoteSource) : Bool :=
  match s.files with
  | none => false
  | some fs => !fs.isEmpty

/-- The method `BaseRemoteSource.download(force_download, filename)`
(sources.py lines 216-251).  The network fetch and temporary directory are
abstract effects; the result records the new attribute state and whether a
download happened. -/
def download (s : RemoteSource) (force_download : Bool) (filename : Option String)
    (basename : String) : Except PyErr (RemoteSource × Bool) := do
  let hd ← s.has_data
  if hd && !force_download then
    pure (s, false)
  else if s.has_files && !force_download then
    pure (s, false)
  else do
    let s ← if force_download then s.reset_cache else pure s
    let rel := filename.getD basename
    let s := { s with temp_dir := some "<tmpdir>", files := some ["<tmpdir>/" ++ rel] }
    pure (s, true)

end RemoteSource

/-! The frequency-ranked parsers `SUBTLEX.process_file` (sources.py lines
603-640) and `LWCWords.process_file` (lines 1050-1087).  Both filter rows
through `process_row`, sort the survivors by an integer count column in
descending order with Python's stable `list.sort(key=..., reverse=True)`,
then append a 1-based rank as a synthesized `number` column.  CPython's
stable descending sort is modelled by `List.insertionSort` with the
relation `fun p q => q.1 ≤ p.1` on key-decorated rows (CPython also
precomputes all keys up front, raising if any `int()` conversion fails,
which the `Option` threading models).  The `csv.reader` line splitting is
an external collaborator; these functions consume its output rows. -/
/-- Python `int(row[idx])` for a row: `none` models an `IndexError` or a
`ValueError` from `int()`. -/
def digitsToNat : List Char → Option Nat
  | [] => none
  | cs => go cs 0
where
  go : List Char → Nat → Option Nat
    | [], acc => some acc
    | c :: cs, acc => if c.isDigit then go cs (acc * 10 + (c.toNat - 48)) else none

/-- Python `int(s)` on an optionally signed decimal string. -/
def pyParseInt (s : String) : Option Int :=
  match s.data with
  | '-' :: cs => (digitsToNat cs).map (fun n => -(n : Int))
  | '+' :: cs => (digitsToNat cs).map (fun n => (n : Int))
  | cs => (digitsToNat cs).map (fun n => (n : Int))

/-- The sort key `int(x[idx])` of the frequency-ranked parsers. -/
def rowKey (idx : Nat) (r : List String) : Option Int :=
  (r.get? idx).bind pyParseInt

/-- The key decoration CPython's `list.sort(key=...)` performs up front:
compute `int(x[idx])` for every row, raising (`none`) if any fails. -/
def decorateKeys (idx : Nat) : List (List String) → Option (List (Int × List String))
  | [] => some []
  | r :: rest => do
    let n ← rowKey idx r
    let tail ← decorateKeys idx rest
    pure ((n, r) :: tail)

/-- Python `prows.sort(key=lambda x: int(x[idx]), reverse=True)`: decorate
every row with its integer key, stably sort in descending key order
(CPython's sort is stable; any stable sort is extensionally the same, and
`List.insertionSort` with `fun p q => q.1 ≤ p.1` is one), undecorate. -/
def pySortByIntKeyDesc (idx : Nat) (rows : List (List String)) :
    Option (List (List String)) := do
  let keyed ← decorateKeys idx rows
  some ((List.insertionSort (fun p q : Int × List String => q.1 ≤ p.1) keyed).map (·.2))

/-- The filtering loop of the frequency-ranked `process_file`s: collect the
rows accepted by `CSVMixin.process_row` (which both `SUBTLEX.process_row`
and the comment test of `LWCWords.process_row` repeat verbatim), raising if
the acceptance check raises. -/
def filterRows (comments : List String) : List (List String) → Option (List (List String))
  | [] => some []
  | r :: rest => do
    let pr ← CSVMixin.process_row r comments
    let tail ← filterRows comments rest
    match pr with
    | none => pure tail
    | some row => pure (row :: tail)

/-- The filtering loop of `LWCWords.process_file`, using
`LWCWords.process_row` (comment test plus CJK-ideograph test). -/
def lwcFilterRows (hasCJK : String → Bool) (comments : List String) :
    List (List String) → Option (List (List String))
  | [] => some []
  | r :: rest => do
    let pr ← LWCWords.process_row hasCJK r comments
    let tail ← lwcFilterRows hasCJK comments rest
    match pr with
    | none => pure tail
    | some row => pure (row :: tail)

/-- The ranking loop of the frequency-ranked `process_file`s
(`for n, prow in enumerate(prows, start=1)`): for each sorted row, the key
column is the lookup key, the excluded columns are trimmed, `str(n)` is
appended, and the record zips the prefixed headers with the trimmed row. -/
def buildRankedPairs (keyIdx : Nat) (hs : List String) (excluded : List Nat)
    (kpfx : String) : Nat → List (List String) → Option (List (String × PyRecord))
  | _, [] => some []
  | n, row :: rest =>
    match row.get? keyIdx with
    | none => none
    | some key =>
      let trow := trim_list row excluded ++ [toString n]
      let value := (hs.map (fun h => kpfx ++ h)).zip (trow.map PyVal.str)
      match buildRankedPairs keyIdx hs excluded kpfx (n + 1) rest with
      | none => none
      | some tail => some ((key, value) :: tail)

namespace SUBTLEX

/-- The header tuple of `SUBTLEX` (sources.py lines 560-564). -/
def headers : List String :=
  ["word", "length", "pinyin", "pinyin.input", "wcount", "w.million",
   "log10w", "w-cd", "w-cd%", "log10cd", "dominant.pos",
   "dominant.pos.freq", "all.pos", "all.pos.freq", "english"]

/-- The comment markers of `SUBTLEX.process_file` (line 614). -/
def comments : List String := ["\uFEFF", "W"]

/-- The column positions dropped from each row:
`exclude + (self.index_column,)` with `exclude = (14,)` and index column
`0`. -/
def excludedColumns : List Nat := [14, 0]

/-- The method `SUBTLEX.process_file(filename, contents)` from the row
stream onward: filter, stable-sort descending by `int(x[4])`, rank, and
merge each `{key: value}` into the file's dataset with `update_dict`. -/
def process_file (rows : List (List String)) : Option PyDataset := do
  let prows ← filterRows comments rows
  let sorted ← pySortByIntKeyDesc 4 prows
  let pairs ← buildRankedPairs 0 (trim_list headers excludedColumns ++ ["number"])
    excludedColumns "SUBTLEX-" 1 sorted
  pure (pairs.foldl (fun d kv => update_dict d [kv] false false) [])

end SUBTLEX

namespace LWCWords

/-- The header tuple of `LWCWords` (sources.py line 1005). -/
def headers : List String := ["word-id", "word", "reverse-of-word", "count"]

/-- The comment markers of `LWCWords.process_file` (line 1061). -/
def comments : List String := ["#"]

/-- The column positions dropped from each row:
`exclude + (self.index_column,)` with `exclude = (2,)` and index column
`1`. -/
def excludedColumns : List Nat := [2, 1]

/-- The method `LWCWords.process_file(filename, contents)` from the row
stream onward: filter (with the CJK test abstracted as `hasCJK`),
stable-sort descending by `int(x[3])`, rank, and merge each `{key: value}`
into the file's dataset with `update_dict`. -/
def process_file (hasCJK : String → Bool) (rows : List (List String)) :
    Option PyDataset := do
  let prows ← lwcFilterRows hasCJK comments rows
  let sorted ← pySortByIntKeyDesc 3 prows
  let pairs ← buildRankedPairs 1 (trim_list headers excludedColumns ++ ["number"])
    excludedColumns "LWC-" 1 sorted
  pure (pairs.foldl (fun d kv => update_dict d [kv] false false) [])

end LWCWords

/-- The property a frequency-ranked parser's output row order must satisfy:
whenever two rows (both with parseable keys) appear in order, the later
row's key is at most the earlier row's key. -/
def rowsSortedDescBy (idx : Nat) (rows : List (List String)) : Prop :=
  List.Pairwise
    (fun r r' => ∀ x y, rowKey idx r = some x → rowKey idx r' = some y → y ≤ x) rows

/-- A SUBTLEX-shaped row (15 fields) carrying word `w` and count `c` in
the count column (index 4). -/
def subtlexRow (w c : String) : List String :=
  [w, "1", "p", "pi", c, "m", "lw", "cd", "cdp", "lcd", "dp", "dpf", "ap",
   "apf", "eng"]

/-- An LWC-shaped row (4 fields) carrying word `w` and count `c` in the
count column (index 3). -/
def lwcRow (i w c : String) : List String := [i, w, w, c]

/-- The SUBTLEX input of the claim's example: rows with counts 10, 30, 20
in that original order. -/
def cexSProws : List (List String) :=
  [subtlexRow "w10" "10", subtlexRow "w30" "30", subtlexRow "w20" "20"]

/-- Those rows in descending count order, as the parser sorts them. -/
def cexSSorted : List (List String) :=
  [subtlexRow "w30" "30", subtlexRow "w20" "20", subtlexRow "w10" "10"]

/-- A concrete LWC input (counts 5 and 7). -/
def cexLProws : List (List String) := [lwcRow "1" "a" "5", lwcRow "2" "b" "7"]

/-- The LWC input sorted in descending count order. -/
def cexLSorted : List (List String) := [lwcRow "2" "b" "7", lwcRow "1" "a" "5"]

/-! The dictionary-entry parser `CEDICT.process_file` / `CEDICT.process_row`
(sources.py lines 928-987).  String primitives (`in`, `replace`, `split`)
are given structural character-level implementations of the Python
operations. -/
/-- Python `c in s` for a single character. -/
def pyContainsChar (s : String) (c : Char) : Bool := s.data.contains c

/-- One fuel-counted step stream of Python `s.replace(pat, sub)`:
left-to-right, non-overlapping occurrences. -/
def pyReplaceGo (pat sub : List Char) : Nat → List Char → List Char
  | _, [] => []
  | 0, cs => cs
  | fuel + 1, c :: rest =>
      if pat.isPrefixOf (c :: rest) && !pat.isEmpty then
        sub ++ pyReplaceGo pat sub fuel ((c :: rest).drop pat.length)
      else
        c :: pyReplaceGo pat sub fuel rest

/-- Python `s.replace(pat, sub)` (the fuel, one unit per character, always
suffices). -/
def pyReplace (s pat sub : String) : String :=
  ⟨pyReplaceGo pat.data sub.data s.data.length s.data⟩

/-- The accumulating loop of Python `s.split(sep)` for a one-character
separator. -/
def pySplitCharGo (sep : Char) : List Char → List Char → List String
  | cur, [] => [String.mk cur.reverse]
  | cur, c :: rest =>
      if c == sep then String.mk cur.reverse :: pySplitCharGo sep [] rest
      else pySplitCharGo sep (c :: cur) rest

/-- Python `s.split(sep)` for a one-character separator (keeps empty
fields, as Python does). -/
def pySplitChar (s : String) (sep : Char) : List String := pySplitCharGo sep [] s.data

/-- A tone digit `1`-`5` (the `[1-5]` of the pinyin regexes). -/
def isToneDigit (c : Char) : Bool := decide ('1' ≤ c) && decide (c ≤ '5')

/-- Modelled from the spec: the tone-diacritic form of a vowel, used by the
external collaborator `dragonmapper.transcriptions.numbered_to_accented`
("String/regex-based tone-number-to-diacritic conversion relies on an
external transliteration routine — treat as an external collaborator").
Tones 1-4 put a macron, acute, caron or grave accent on the vowel (`v`
standing for `ü`); tone 5 leaves it bare. -/
def toneVowel (v : Char) (t : Char) : Char :=
  match v, t with
  | 'a', '1' => 'ā'
  | 'a', '2' => 'á'
  | 'a', '3' => 'ǎ'
  | 'a', '4' => 'à'
  | 'e', '1' => 'ē'
  | 'e', '2' => 'é'
  | 'e', '3' => 'ě'
  | 'e', '4' => 'è'
  | 'i', '1' => 'ī'
  | 'i', '2' => 'í'
  | 'i', '3' => 'ǐ'
  | 'i', '4' => 'ì'
  | 'o', '1' => 'ō'
  | 'o', '2' => 'ó'
  | 'o', '3' => 'ǒ'
  | 'o', '4' => 'ò'
  | 'u', '1' => 'ū'
  | 'u', '2' => 'ú'
  | 'u', '3' => 'ǔ'
  | 'u', '4' => 'ù'
  | 'v', '1' => 'ǖ'
  | 'v', '2' => 'ǘ'
  | 'v', '3' => 'ǚ'
  | 'v', '4' => 'ǜ'
  | c, _ => c

/-- The index of an `ou` pair in a syllable, if any. -/
def ouIdx : List Char → Option Nat
  | 'o' :: 'u' :: _ => some 0
  | _ :: rest => (ouIdx rest).map (· + 1)
  | [] => none

/-- A pinyin vowel letter (`v` standing for `ü`, as the source rewrites
`u:` to `v` before converting). -/
def isPinyinVowel (c : Char) : Bool :=
  c == 'a' || c == 'e' || c == 'i' || c == 'o' || c == 'u' || c == 'v'

/-- The index of the last vowel of a syllable, if any. -/
def lastVowelIdx (letters : List Char) : Option Nat :=
  match letters.reverse.findIdx? isPinyinVowel with
  | some j => some (letters.length - 1 - j)
  | none => none

/-- Modelled from the spec: placing the tone mark of one numbered syllable
(`a` first, then `e`, then the `o` of `ou`, otherwise the last vowel; the
standard placement rule the external collaborator implements).  A syllable
with no vowel is left unconverted, digit included. -/
def markSyllable (letters : List Char) (t : Char) : List Char :=
  if t == '5' then letters
  else
    match letters.findIdx? (fun c => c == 'a') with
    | some i => letters.set i (toneVowel 'a' t)
    | none =>
      match letters.findIdx? (fun c => c == 'e') with
      | some i => letters.set i (toneVowel 'e' t)
      | none =>
        match ouIdx letters with
        | some i => letters.set i (toneVowel 'o' t)
        | none =>
          match lastVowelIdx letters with
          | some i => letters.set i (toneVowel (letters.getD i ' ') t)
          | none => letters ++ [t]

/-- The scanning loop of the numbered-to-accented conversion: letters
accumulate into a syllable buffer; a tone digit converts and flushes the
buffer; any other character flushes it unchanged. -/
def accentGo : List Char → List Char → List Char
  | buf, [] => buf
  | buf, c :: rest =>
      if c.isAlpha then accentGo (buf ++ [c]) rest
      else if isToneDigit c then markSyllable buf c ++ accentGo [] rest
      else buf ++ c :: accentGo [] rest

/-- Modelled from the spec: the external collaborator
`dragonmapper.transcriptions.numbered_to_accented`, which converts
numbered-tone pinyin (`chang2`) to tone-diacritic form (`cháng`),
passing non-pinyin characters through. -/
def numbered_to_accented (s : String) : String := ⟨accentGo [] s.data⟩

/-- Does the (reversed) output so far end with `letters+tone-digit`?  Part
of the space-removal regex `(?:[a-zA-Z]+[1-5](?: (?=[a-zA-Z]+[1-5]))?)+` of
`CEDICT.process_row` (sources.py line 972). -/
def endsTonedSyllable : List Char → Bool
  | t :: c :: _ => isToneDigit t && c.isAlpha
  | _ => false

/-- Does the remaining input start with `letters+tone-digit`? -/
def startsTonedSyllable (cs : List Char) : Bool :=
  let letters := cs.takeWhile (fun c => c.isAlpha)
  !letters.isEmpty &&
    (match (cs.drop letters.length).head? with
     | some t => isToneDigit t
     | none => false)

/-- The scanning loop of the space removal: a space standing between two
`letters+tone-digit` syllable tokens is dropped, any other character is
kept (`acc` holds the output so far, reversed). -/
def pinyinSpaceGo : List Char → List Char → List Char
  | acc, [] => acc.reverse
  | acc, ' ' :: rest =>
      if endsTonedSyllable acc && startsTonedSyllable rest then
        pinyinSpaceGo acc rest
      else pinyinSpaceGo (' ' :: acc) rest
  | acc, c :: rest => pinyinSpaceGo (c :: acc) rest

/-- The space removal of `CEDICT.process_row` lines 974-976: within runs of
numbered syllables joined by single spaces, the spaces are removed. -/
def pinyinRemoveSpaces (s : String) : String := ⟨pinyinSpaceGo [] s.data⟩

/-- The bracketed-pinyin rewriting of `CEDICT.process_row` lines 978-985:
each `[letters/tone-digits/spaces]` group inside the definition text gets
the same space removal and numbered-to-accented conversion (fuel-counted
scan; one unit per character always suffices). -/
def bracketGo : Nat → List Char → List Char
  | _, [] => []
  | 0, cs => cs
  | fuel + 1, '[' :: rest =>
      let run := rest.takeWhile (fun c => c.isAlpha || isToneDigit c || c == ' ')
      match run, rest.drop run.length with
      | _ :: _, ']' :: rest2 =>
          let inner := String.mk run
          let inner2 := if pyContainsChar inner ' ' then pinyinRemoveSpaces inner
            else inner
          (numbered_to_accented ("[" ++ inner2 ++ "]")).data ++ bracketGo fuel rest2
      | _, _ => '[' :: bracketGo fuel rest
  | fuel + 1, c :: rest => c :: bracketGo fuel rest

/-- The whole-definition bracketed-pinyin rewriting of
`CEDICT.process_row`. -/
def cedictConvertBrackets (s : String) : String := ⟨bracketGo s.data.length s.data⟩

namespace CEDICT

/-- The method `CEDICT.process_row(row, comments)` (sources.py lines
967-987): reject comment rows; rewrite `u:` to `v` in the pronunciation;
remove spaces inside syllable runs when the pronunciation has a space;
convert numbered tones to diacritics; rewrite bracketed pinyin inside the
definition; split the definition on `/`.  `none` models a raised
`IndexError` (rows that do not have the four fields `process_file`
guarantees). -/
def process_row (row : List String) (comments : List String) :
    Option (Option (List PyVal)) :=
  match row with
  | [] => none
  | t :: rest =>
    match t.data with
    | [] => none
    | c :: _ =>
      if comments.contains (String.singleton c) then some none
      else
        match rest with
        | [s, p, d] =>
          let p1 := pyReplace p "u:" "v"
          let p2 := if pyContainsChar p1 ' ' then pinyinRemoveSpaces p1 else p1
          let p3 := numbered_to_accented p2
          let d1 := if pyContainsChar d '[' then cedictConvertBrackets d else d
          some (some [PyVal.str t, PyVal.str s, PyVal.str p3,
            PyVal.list ((pySplitChar d1 '/').map PyVal.str)])
        | _ => none

/-- The loop of `CEDICT.process_file(filename, contents)` (sources.py lines
937-954) over the parsed rows: skip rows without exactly four fields and
comment rows; wrap the processed row as `{ 'CEDICT-entry': [prow] }`; merge
it under the first headword, and also under the second headword when the
two differ. -/
def process_file (rows : List (List String)) : Option PyDataset :=
  go [] rows
where
  go : PyDataset → List (List String) → Option PyDataset
    | data, [] => some data
    | data, row :: rest =>
      if row.length ≠ 4 then go data rest
      else
        match process_row row ["#"] with
        | none => none
        | some none => go data rest
        | some (some prow) =>
          match prow with
          | PyVal.str t :: PyVal.str s :: _ =>
            let value : PyRecord := [("CEDICT-entry", PyVal.list [PyVal.list prow])]
            let data := update_dict data [(t, value)] false false
            let data := if t ≠ s then update_dict data [(s, value)] false false
              else data
            go data rest
          | _ => none

end CEDICT

/-- The record `CEDICT.process_file` builds for one parsed entry row: a
single `CEDICT-entry` attribute holding the one-element list whose element
is the processed row — both headwords, the pronunciation after `u:`
rewriting, conditional space removal and tone-diacritic conversion, and the
definition split on `/` into the ordered sense list. -/
def cedictEntryRecord (t s p d : String) : PyRecord :=
  [("CEDICT-entry", PyVal.list [PyVal.list [PyVal.str t, PyVal.str s,
    PyVal.str (numbered_to_accented
      (if pyContainsChar (pyReplace p "u:" "v") ' '
       then pinyinRemoveSpaces (pyReplace p "u:" "v")
       else pyReplace p "u:" "v")),
    PyVal.list ((pySplitChar
      (if pyContainsChar d '[' then cedictConvertBrackets d else d) '/').map
        PyVal.str)]])]

/-! Theorems: the claims about the embedded operations, with their
supporting lemmas, in the order of the definitions they concern. -/

/-! Association-list lemmas used to reason about the merge. -/
theorem containsKey_append (l1 l2 : List (String × α)) (k : String) :
    containsKey (l1 ++ l2) k = (containsKey l1 k || containsKey l2 k) := by
  simp [containsKey, List.any_append]

theorem containsKey_of_mem {l : List (String × α)} {kv : String × α}
    (h : kv ∈ l) : containsKey l kv.1 = true := by
  simp only [containsKey, List.any_eq_true]
  exact ⟨kv, h, by simp⟩

theorem dictGet_eq_none_of_containsKey_false {l : List (String × α)} {k : String}
    (h : containsKey l k = false) : dictGet l k = none := by
  induction l with
  | nil => rfl
  | cons kv rest ih =>
    simp only [containsKey, List.any_cons, Bool.or_eq_false_iff, beq_eq_false_iff_ne,
      ne_eq] at h
    simp only [dictGet, if_neg h.1, ih (by simpa [containsKey] using h.2)]

theorem containsKey_eq_true_of_dictGet {l : List (String × α)} {k : String} {v : α}
    (h : dictGet l k = some v) : containsKey l k = true := by
  by_contra hc
  rw [dictGet_eq_none_of_containsKey_false (by simpa using hc)] at h
  exact Option.noConfusion h

theorem dictGet_append (l1 l2 : List (String × α)) (k : String) :
    dictGet (l1 ++ l2) k =
      match dictGet l1 k with
      | some v => some v
      | none => dictGet l2 k := by
  induction l1 with
  | nil => rfl
  | cons kv rest ih =>
    by_cases h : kv.1 = k
    · simp [dictGet, h]
    · simp [dictGet, h, ih]

theorem dictGet_of_mem_nodup {l : List (String × α)} {k : String} {v : α}
    (hnd : (l.map Prod.fst).Nodup) (hm : (k, v) ∈ l) : dictGet l k = some v := by
  induction l with
  | nil => exact absurd hm (List.not_mem_nil _)
  | cons kv rest ih =>
    simp only [List.map_cons, List.nodup_cons] at hnd
    rcases List.mem_cons.1 hm with h | h
    · subst h
      simp [dictGet]
    · have hk : kv.1 ≠ k := by
        intro hk
        exact hnd.1 (hk ▸ List.mem_map.2 ⟨(k, v), h, rfl⟩)
      simp only [dictGet, if_neg hk]
      exact ih hnd.2 h

theorem dictSet_of_containsKey_false {l : List (String × α)} {k : String}
    (h : containsKey l k = false) (v : α) : dictSet l k v = l ++ [(k, v)] := by
  induction l with
  | nil => rfl
  | cons kv rest ih =>
    simp only [containsKey, List.any_cons, Bool.or_eq_false_iff, beq_eq_false_iff_ne,
      ne_eq] at h
    simp only [dictSet, if_neg h.1, List.cons_append, List.cons.injEq, true_and]
    exact ih (by simpa [containsKey] using h.2)

theorem dictSet_map_fst_of_containsKey {l : List (String × α)} {k : String}
    (h : containsKey l k = true) (v : α) :
    (dictSet l k v).map Prod.fst = l.map Prod.fst := by
  induction l with
  | nil => simp [containsKey] at h
  | cons kv rest ih =>
    by_cases hk : kv.1 = k
    · simp [dictSet, hk]
    · simp only [containsKey, List.any_cons, Bool.or_eq_true, beq_iff_eq] at h
      rcases h with h | h
      · exact absurd h hk
      · simp only [dictSet, if_neg hk, List.map_cons, List.cons.injEq, true_and]
        exact ih (by simpa [containsKey] using h) 

theorem dictSet_self {l : List (String × α)} {k : String} {v : α}
    (h : dictGet l k = some v) : dictSet l k v = l := by
  induction l with
  | nil => exact Option.noConfusion h
  | cons kv rest ih =>
    obtain ⟨k', v'⟩ := kv
    by_cases hk : k' = k
    · simp only [dictGet, if_pos hk] at h
      obtain rfl := Option.some.inj h
      simp [dictSet, hk]
    · simp only [dictGet, if_neg hk] at h
      simp [dictSet, hk, ih h]

theorem dictSet_append_singleton {l : List (String × α)} {k : String}
    (h : containsKey l k = false) (w v : α) :
    dictSet (l ++ [(k, w)]) k v = l ++ [(k, v)] := by
  induction l with
  | nil => simp [dictSet]
  | cons kv rest ih =>
    simp only [containsKey, List.any_cons, Bool.or_eq_false_iff, beq_eq_false_iff_ne,
      ne_eq] at h
    simp only [List.cons_append, dictSet, if_neg h.1, List.cons.injEq, true_and]
    exact ih (by simpa [containsKey] using h.2)

theorem dictUpdate_disjoint {other : List (String × α)} :
    ∀ {d : List (String × α)},
    (∀ kv ∈ other, containsKey d kv.1 = false) →
    (other.map Prod.fst).Nodup →
    dictUpdate d other = d ++ other := by
  induction other with
  | nil => intro d _ _; simp [dictUpdate]
  | cons kv rest ih =>
    intro d hdisj hnd
    have h1 : containsKey d kv.1 = false := hdisj kv (List.mem_cons_self _ _)
    simp only [dictUpdate, List.foldl_cons] at *
    rw [dictSet_of_containsKey_false h1]
    have hnd' : (rest.map Prod.fst).Nodup := by
      simpa using hnd.of_cons
    have hdisj' : ∀ kv' ∈ rest, containsKey (d ++ [(kv.1, kv.2)]) kv'.1 = false := by
      intro kv' hm
      rw [containsKey_append, hdisj kv' (List.mem_cons_of_mem _ hm), Bool.false_or]
      have hne : kv'.1 ≠ kv.1 := by
        intro he
        simp only [List.map_cons, List.nodup_cons] at hnd
        exact hnd.1 (he ▸ List.mem_map.2 ⟨kv', hm, rfl⟩)
      simp [containsKey]
      exact Ne.symm hne
    have := ih (d := d ++ [(kv.1, kv.2)]) hdisj' hnd'
    simpa [dictUpdate] using this

/-- The pass of `update_dict` over keys that are all absent from `d` (with
`annotate=False`) appends the corresponding entries in order. -/
theorem update_dict_disjoint (dup : Bool) :
    ∀ {other d : PyDataset},
    (∀ kv ∈ other, containsKey d kv.1 = false) →
    ((other.map Prod.fst).Nodup) →
    (∀ kv ∈ other, ((kv.2.map Prod.fst)).Nodup) →
    update_dict d other dup false = d ++ other := by
  intro other
  induction other with
  | nil => intro d _ _ _; simp [update_dict]
  | cons kv rest ih =>
    intro d hdisj hnd hrec
    obtain ⟨key, value⟩ := kv
    have h1 : containsKey d key = false := hdisj (key, value) (List.mem_cons_self _ _)
    simp only [update_dict, List.foldl_cons]
    have hstep : updateEntry dup false d (key, value) = d ++ [(key, value)] := by
      simp only [updateEntry, Bool.and_false, Bool.false_eq_true, if_false,
        dictSetdefault, h1, Bool.false_eq_true, if_false]
      rw [dictGet_append, dictGet_eq_none_of_containsKey_false h1]
      simp only [dictGet, if_pos rfl, Option.getD_some, List.any_nil, Bool.not_false,
        if_true]
      have hupd : dictUpdate ([] : PyRecord) value = value := by
        have := @dictUpdate_disjoint _ value []
          (fun kv _ => rfl) (hrec (key, value) (List.mem_cons_self _ _))
        simpa using this
      rw [hupd, dictSet_append_singleton h1]
    rw [hstep]
    have hnd' : (rest.map Prod.fst).Nodup := by simpa using hnd.of_cons
    have hdisj' : ∀ kv' ∈ rest, containsKey (d ++ [(key, value)]) kv'.1 = false := by
      intro kv' hm
      rw [containsKey_append, hdisj kv' (List.mem_cons_of_mem _ hm), Bool.false_or]
      have hne : kv'.1 ≠ key := by
        intro he
        simp only [List.map_cons, List.nodup_cons] at hnd
        exact hnd.1 (he ▸ List.mem_map.2 ⟨kv', hm, rfl⟩)
      simp [containsKey]
      exact Ne.symm hne
    have hrec' : ∀ kv' ∈ rest, ((kv'.2.map Prod.fst)).Nodup :=
      fun kv' hm => hrec kv' (List.mem_cons_of_mem _ hm)
    have := ih hdisj' hnd' hrec'
    simpa [update_dict] using this

/-- Re-merging an attribute list whose entries are already present in the
record with identical scalar values is a no-op (duplicates suppressed). -/
theorem mergeAttr_fold_self :
    ∀ (items : List (String × PyVal)) (rec : PyRecord),
    (∀ kv ∈ items, dictGet rec kv.1 = some kv.2) →
    (∀ kv ∈ items, (kv.2.isStr) = true) →
    items.foldl (mergeAttr false) rec = rec := by
  intro items
  induction items with
  | nil => intro rec _ _; rfl
  | cons kv rest ih =>
    intro rec hget hstr
    obtain ⟨k, v⟩ := kv
    have h1 : dictGet rec k = some v := hget (k, v) (List.mem_cons_self _ _)
    have h2 : v.isStr = true := hstr (k, v) (List.mem_cons_self _ _)
    obtain ⟨s, rfl⟩ : ∃ s, v = PyVal.str s := by
      cases v with
      | str s => exact ⟨s, rfl⟩
      | list _ => simp [PyVal.isStr] at h2
    have hstep : mergeAttr false rec (k, PyVal.str s) = rec := by
      simp only [mergeAttr, h1]
      have hdup : pyIsDup (PyVal.str s) (PyVal.str s) = true := by
        simp [pyIsDup]
      simp [hdup]
    simp only [List.foldl_cons, hstep]
    exact ih rec (fun kv hm => hget kv (List.mem_cons_of_mem _ hm))
      (fun kv hm => hstr kv (List.mem_cons_of_mem _ hm))

/-- Merging a dataset into a dataset that already contains every one of its
entries with identical all-scalar records is a no-op. -/
theorem update_dict_self_scalar :
    ∀ (other A : PyDataset),
    (∀ kv ∈ other, dictGet A kv.1 = some kv.2) →
    (∀ kv ∈ other, ((kv.2.map Prod.fst)).Nodup) →
    (∀ kv ∈ other, ∀ av ∈ kv.2, (av.2.isStr) = true) →
    update_dict A other false false = A := by
  intro other
  induction other with
  | nil => intro A _ _ _; rfl
  | cons kv rest ih =>
    intro A hget hnd hsc
    obtain ⟨key, value⟩ := kv
    have h1 : dictGet A key = some value := hget (key, value) (List.mem_cons_self _ _)
    have hck : containsKey A key = true := containsKey_eq_true_of_dictGet h1
    have hstep : updateEntry false false A (key, value) = A := by
      simp only [updateEntry, Bool.and_false, Bool.false_eq_true, if_false,
        dictSetdefault, hck, if_true, h1, Option.getD_some]
      cases value with
      | nil =>
        simp only [List.any_nil, Bool.not_false, if_true]
        exact dictSet_self (by simpa using h1)
      | cons av avs =>
        have hov : (av :: avs).any (fun a => containsKey (av :: avs) a.1) = true := by
          simp only [List.any_eq_true]
          exact ⟨av, List.mem_cons_self _ _, containsKey_of_mem (List.mem_cons_self _ _)⟩
        rw [hov]
        simp only [Bool.not_true, Bool.false_eq_true, if_false]
        have hfold : (av :: avs).foldl (mergeAttr false) (av :: avs) = av :: avs := by
          apply mergeAttr_fold_self
          · intro kv hm
            exact dictGet_of_mem_nodup (hnd (key, av :: avs) (List.mem_cons_self _ _))
              (by simpa using hm)
          · intro kv hm
            exact hsc (key, av :: avs) (List.mem_cons_self _ _) kv hm
        rw [hfold]
        exact dictSet_self h1
    simp only [update_dict, List.foldl_cons, hstep]
    exact ih A (fun kv hm => hget kv (List.mem_cons_of_mem _ hm))
      (fun kv hm => hnd kv (List.mem_cons_of_mem _ hm))
      (fun kv hm => hsc kv (List.mem_cons_of_mem _ hm))

/-- C1: the claim says that `mash` with fewer than two positional sources
raises an `InvalidArgument`-kind error and does not return normally.  The
code at data.py line 22-23 instead executes `return ValueError(...)`: the
call RETURNS NORMALLY, with a `ValueError` instance as its value (and no
merged mapping).  This theorem evaluates the embedded code on every call
with fewer than two sources and shows the normal return. -/
theorem mash_too_few_sources_returns_valueerror (args : List MashArg) (annotate : Bool)
    (h : args.length < 2) :
    mash args annotate = .valueErrorObject "mash expects at least 2 data sources." := by
  unfold mash
  rw [if_pos h]

/-- Witness for `mash_too_few_sources_returns_valueerror` at a concrete
one-argument call. -/
theorem mash_too_few_sources_witness :
    ([MashArg.dict [("3", [("3", PyVal.str "4")])]] : List MashArg).length < 2 ∧
    mash [MashArg.dict [("3", [("3", PyVal.str "4")])]] false
      = .valueErrorObject "mash expects at least 2 data sources." :=
  ⟨by decide, mash_too_few_sources_returns_valueerror _ false (by decide)⟩

/-- C2 counterexample: for the dataset `A = {'k': {'a': ['x']}}` (a record
whose value is a list of strings, as allowed by the claim), `mash(A, A)`
with `annotate=False` does NOT return `A`: the duplicate test of
`update_dict` (`v in dvalue`) never recognises a list value as a duplicate
of itself, so the list is extended with its own contents and the result is
`{'k': {'a': ['x', 'x']}}`. -/
theorem mash_self_list_value_not_idempotent :
    mash [.dict [("k", [("a", PyVal.list [PyVal.str "x"])])],
          .dict [("k", [("a", PyVal.list [PyVal.str "x"])])]] false
      = .val [("k", [("a", PyVal.list [PyVal.str "x", PyVal.str "x"])])] ∧
    mash [.dict [("k", [("a", PyVal.list [PyVal.str "x"])])],
          .dict [("k", [("a", PyVal.list [PyVal.str "x"])])]] false
      ≠ .val [("k", [("a", PyVal.list [PyVal.str "x"])])] :=
  ⟨by decide, by decide⟩

/-- C2 (amended): for every dataset `A` whose keys are distinct, whose
records have distinct attribute names, and ALL of whose attribute values are
scalar strings (no list values), `mash(A, A)` with `annotate=False` returns
exactly `A`: every identical scalar value is suppressed as a duplicate. -/
theorem mash_self_scalar_idempotent (A : PyDataset)
    (h1 : (A.map Prod.fst).Nodup)
    (h2 : ∀ kv ∈ A, ((kv.2.map Prod.fst)).Nodup)
    (h3 : ∀ kv ∈ A, ∀ av ∈ kv.2, (av.2.isStr) = true) :
    mash [.dict A, .dict A] false = .val A := by
  have hB : update_dict [] A false false = A := by
    have := @update_dict_disjoint false A []
      (fun kv _ => rfl) h1 h2
    simpa using this
  have hC : update_dict A A false false = A :=
    update_dict_self_scalar A A
      (fun kv hm => dictGet_of_mem_nodup h1 hm) h2 h3
  simp only [mash, List.length_cons, List.length_nil, List.any_cons, List.any_nil]
  norm_num
  simp only [List.foldl_cons, List.foldl_nil, MashArg.toData, if_true, hB,
    Bool.false_eq_true, if_false, hC]

/-- Witness for `mash_self_scalar_idempotent` on the all-scalar dataset
`{'k': {'a': 'x'}}`. -/
theorem mash_self_scalar_witness :
    ((([("k", [("a", PyVal.str "x")])] : PyDataset).map Prod.fst).Nodup ∧
      (∀ kv ∈ ([("k", [("a", PyVal.str "x")])] : PyDataset), ((kv.2.map Prod.fst)).Nodup) ∧
      (∀ kv ∈ ([("k", [("a", PyVal.str "x")])] : PyDataset), ∀ av ∈ kv.2,
        (av.2.isStr) = true)) ∧
    mash [.dict [("k", [("a", PyVal.str "x")])], .dict [("k", [("a", PyVal.str "x")])]] false
      = .val [("k", [("a", PyVal.str "x")])] :=
  ⟨⟨by decide, by simp, by simp [PyVal.isStr]⟩,
    mash_self_scalar_idempotent _ (by decide) (by simp) (by simp [PyVal.isStr])⟩

/-- Keys of the destination are untouched by one annotate-mode step. -/
theorem updateEntry_annotate_map_fst (dup : Bool) (d : PyDataset) (kv : String × PyRecord) :
    (updateEntry dup true d kv).map Prod.fst = d.map Prod.fst := by
  obtain ⟨key, value⟩ := kv
  cases hc : containsKey d key with
  | false => simp [updateEntry, hc]
  | true =>
    simp only [updateEntry, hc, Bool.not_true, Bool.false_and, Bool.false_eq_true,
      if_false, dictSetdefault, if_true]
    split
    · exact dictSet_map_fst_of_containsKey hc _
    · exact dictSet_map_fst_of_containsKey hc _

/-- C4: for every pair of two-level mappings `D` and `O` and either setting
of `allow_duplicates`, the merge in annotate mode leaves the key sequence of
`D` unchanged: every key of the result was already a key of `D`, and keys of
`O` absent from `D` are skipped entirely. -/
theorem update_dict_annotate_preserves_keys (d other : PyDataset) (dup : Bool) :
    (update_dict d other dup true).map Prod.fst = d.map Prod.fst := by
  induction other generalizing d with
  | nil => rfl
  | cons kv rest ih =>
    simp only [update_dict, List.foldl_cons] at *
    rw [ih (updateEntry dup true d kv), updateEntry_annotate_map_fst]

/-- C5: when the merge meets the same key and the same attribute name in
both mappings with two different scalar values, the destination attribute is
promoted to the ordered two-element list holding the old value then the new
value. -/
theorem update_dict_conflicting_scalars (key a s1 s2 : String) (h : s1 ≠ s2) :
    update_dict [(key, [(a, PyVal.str s1)])] [(key, [(a, PyVal.str s2)])] false false
      = [(key, [(a, PyVal.list [PyVal.str s1, PyVal.str s2])])] := by
  have hbeq : (PyVal.str s2 == PyVal.str s1) = false := by
    simp only [beq_eq_false_iff_ne, ne_eq, PyVal.str.injEq]
    exact fun he => h he.symm
  simp [update_dict, updateEntry, dictSetdefault, containsKey, dictGet, dictUpdate,
    dictSet, mergeAttr, pyIsDup, hbeq]

/-- Witness for `update_dict_conflicting_scalars`: the spec's concrete
example `D={'3':{'3':'4'}}`, `O={'3':{'3':'5'}}` gives
`{'3':{'3':['4','5']}}`. -/
theorem update_dict_conflicting_scalars_witness :
    ("4" : String) ≠ "5" ∧
    update_dict [("3", [("3", PyVal.str "4")])] [("3", [("3", PyVal.str "5")])] false false
      = [("3", [("3", PyVal.list [PyVal.str "4", PyVal.str "5"])])] :=
  ⟨by decide, update_dict_conflicting_scalars "3" "3" "4" "5" (by decide)⟩

/-- C3 counterexample: a source with two acquired files whose second read
raises.  After the abort the instance's data holds the full dataset of the
first file — a truncated result — and is NOT equal to its pre-parse state
(empty), contrary to the claim. -/
theorem read_abort_leaves_truncated_data :
    BaseSource.read cexReadFile cexProcessFile [] [0, 1]
      = .error ("boom", [("k", [("a", PyVal.str "1")])]) ∧
    ([("k", [("a", PyVal.str "1")])] : PyDataset) ≠ [] :=
  ⟨rfl, by decide⟩

/-- C3 (amended): when `read` aborts partway because reading a file raises,
the instance's data afterwards equals the (possibly truncated) dataset
obtained by successfully processing exactly the files before the failing
one — not its pre-parse state. -/
theorem read_abort_data_is_processed_prefix
    (readFile : F → Except String (Option String))
    (processFile : F → String → PyDataset)
    (d d' : PyDataset) (files : List F) (e : String)
    (h : BaseSource.read readFile processFile d files = .error (e, d')) :
    ∃ pre f post, files = pre ++ f :: post ∧ readFile f = .error e ∧
      BaseSource.read readFile processFile d pre = .ok d' := by
  induction files generalizing d with
  | nil => exact absurd h (by simp [BaseSource.read])
  | cons f rest ih =>
    rw [BaseSource.read] at h
    cases hr : readFile f with
    | error e' =>
      rw [hr] at h
      obtain ⟨rfl, rfl⟩ : e' = e ∧ d = d' := by
        have := Except.error.inj h
        exact ⟨congrArg Prod.fst this, congrArg Prod.snd this⟩
      exact ⟨[], f, rest, rfl, hr, rfl⟩
    | ok c =>
      cases c with
      | none =>
        rw [hr] at h
        obtain ⟨pre, f', post, h1, h2, h3⟩ := ih _ h
        exact ⟨f :: pre, f', post, by simp [h1], h2, by rw [BaseSource.read, hr]; exact h3⟩
      | some contents =>
        rw [hr] at h
        obtain ⟨pre, f', post, h1, h2, h3⟩ := ih _ h
        exact ⟨f :: pre, f', post, by simp [h1], h2, by rw [BaseSource.read, hr]; exact h3⟩

/-- Witness for `read_abort_data_is_processed_prefix` at the concrete
two-file aborting source. -/
theorem read_abort_prefix_witness :
    ∃ pre f post, ([0, 1] : List Nat) = pre ++ f :: post ∧
      cexReadFile f = .error "boom" ∧
      BaseSource.read cexReadFile cexProcessFile [] pre
        = .ok [("k", [("a", PyVal.str "1")])] :=
  read_abort_data_is_processed_prefix cexReadFile cexProcessFile []
    [("k", [("a", PyVal.str "1")])] [0, 1] "boom" rfl

/-- C8: `mash(A, B)` shallow-merges records by reference, so the output
record holds the very same list object (cell 0) as the input `A`, and the
conflict-path append for `B`'s value mutates that object in place: after
the call, the list `A` itself holds for key `'k'`, attribute `'a'` has
become `['x', 'y']` — the earlier input source's own dataset was mutated. -/
theorem mash_mutates_earlier_input :
    hMash [["x"]] [c8A, c8B] false
      = .val [["x", "y"]] [("k", [("a", HVal.ref 0)])] ∧
    heapGet [["x", "y"]] 0 ≠ heapGet [["x"]] 0 ∧
    dictGet c8A "k" = some [("a", HVal.ref 0)] :=
  ⟨by decide, by decide, by decide⟩

/-- C9: the row-acceptance check of the delimited-text parsers inspects
`row[0][0]`; on every row that is empty or whose first field is the empty
string the check raises `IndexError` (the model returns `none`), so the
parsers require every row produced by the line splitter to be non-empty
with a non-empty first field. -/
theorem process_row_empty_first_field_raises (row : List String)
    (comments : List String) (hasCJK : String → Bool)
    (h : row = [] ∨ row.head? = some "") :
    CSVMixin.process_row row comments = none ∧
      LWCWords.process_row hasCJK row comments = none := by
  rcases h with rfl | h
  · exact ⟨rfl, rfl⟩
  · cases row with
    | nil => exact ⟨rfl, rfl⟩
    | cons f rest =>
      obtain rfl : f = "" := by simpa using h
      exact ⟨rfl, rfl⟩

/-- Witness for `process_row_empty_first_field_raises` at the row whose
only field is the empty string. -/
theorem process_row_empty_first_field_witness :
    ((([""] : List String) = [] ∨ ([""] : List String).head? = some "")) ∧
    CSVMixin.process_row [""] ["#"] = none ∧
      LWCWords.process_row (fun _ => true) [""] ["#"] = none :=
  ⟨Or.inr rfl, process_row_empty_first_field_raises [""] ["#"] (fun _ => true) (Or.inr rfl)⟩

/-- C10: for every remote source whose `cache` attribute was never created
(which is exactly the state of every instance constructed with
`cache_data=False`), calling `download` with `force_download=True` raises
`AttributeError` instead of re-downloading: the forced path unconditionally
calls `_reset_cache`, which accesses `self.cache`. -/
theorem download_force_without_cache_raises (s : RemoteSource)
    (fname : Option String) (bn : String)
    (h : s.cache = none) :
    s.download true fname bn = .error .attributeError := by
  cases hd : s.data with
  | none =>
    simp [RemoteSource.download, RemoteSource.has_data, hd, Bind.bind, Except.bind]
  | some d =>
    simp [RemoteSource.download, RemoteSource.has_data, hd, Bind.bind, Except.bind,
      RemoteSource.reset_cache, h]

/-- Witness for `download_force_without_cache_raises` at a freshly
constructed `cache_data=False` source. -/
theorem download_force_without_cache_witness :
    (RemoteSource.init "SRC" false ⟨[]⟩).cache = none ∧
    (RemoteSource.init "SRC" false ⟨[]⟩).download true none "f.zip"
      = .error .attributeError :=
  ⟨rfl, download_force_without_cache_raises _ none "f.zip" rfl⟩

/-- Facts about the key decoration: undecorating gives back the rows in
order, and every decorated pair carries its row's key. -/
theorem decorateKeys_facts (idx : Nat) :
    ∀ (rows : List (List String)) (keyed : List (Int × List String)),
    decorateKeys idx rows = some keyed →
    keyed.map (·.2) = rows ∧ ∀ p ∈ keyed, rowKey idx p.2 = some p.1 := by
  intro rows
  induction rows with
  | nil =>
    intro keyed h
    obtain rfl : ([] : List (Int × List String)) = keyed := by
      simpa [decorateKeys] using h
    exact ⟨rfl, by simp⟩
  | cons r rest ih =>
    intro keyed h
    rw [decorateKeys] at h
    cases hk : rowKey idx r with
    | none => rw [hk] at h; exact absurd h (by simp)
    | some n =>
      rw [hk] at h
      cases ht : decorateKeys idx rest with
      | none => rw [ht] at h; exact absurd h (by simp)
      | some tail =>
        rw [ht] at h
        obtain rfl : (n, r) :: tail = keyed := by simpa using h
        obtain ⟨h1, h2⟩ := ih tail ht
        refine ⟨by simp [h1], ?_⟩
        intro p hp
        rcases List.mem_cons.1 hp with rfl | hp
        · exact hk
        · exact h2 p hp

/-- The three sort facts of the frequency-ranked parsers: the sorted rows
are a permutation of the surviving rows, they are in descending key order,
and rows with any given key value keep their original relative order
(stability, stated as: filtering either list down to one key value gives
the same list). -/
theorem pySortByIntKeyDesc_spec (idx : Nat) (prows sorted : List (List String))
    (hs : pySortByIntKeyDesc idx prows = some sorted) :
    sorted.Perm prows ∧ rowsSortedDescBy idx sorted ∧
      ∀ c : Int, sorted.filter (fun r => rowKey idx r == some c)
        = prows.filter (fun r => rowKey idx r == some c) := by
  classical
  set r := fun p q : Int × List String => q.1 ≤ p.1 with hr
  obtain ⟨keyed, hk, rfl⟩ :
      ∃ keyed, decorateKeys idx prows = some keyed ∧
        sorted = (List.insertionSort r keyed).map (·.2) := by
    unfold pySortByIntKeyDesc at hs
    cases hd : decorateKeys idx prows with
    | none => rw [hd] at hs; exact absurd hs (by simp)
    | some keyed =>
      rw [hd] at hs
      exact ⟨keyed, rfl, by simpa using hs.symm⟩
  obtain ⟨hmap, hkeys⟩ := decorateKeys_facts idx prows keyed hk
  haveI : IsTotal (Int × List String) r := ⟨fun a b => le_total b.1 a.1⟩
  haveI : IsTrans (Int × List String) r := ⟨fun a b c hab hbc => le_trans hbc hab⟩
  have hperm : List.Perm ((List.insertionSort r keyed).map (·.2)) prows := by
    rw [← hmap]
    exact (List.perm_insertionSort r keyed).map _
  refine ⟨hperm, ?_, ?_⟩
  · have hsorted : List.Pairwise r (List.insertionSort r keyed) :=
      List.sorted_insertionSort r keyed
    have hsorted' : List.Pairwise
        (fun p q : Int × List String =>
          ∀ x y, rowKey idx p.2 = some x → rowKey idx q.2 = some y → y ≤ x)
        (List.insertionSort r keyed) := by
      refine hsorted.imp_of_mem ?_
      intro p q hp hq hpq x y hx hy
      have hp' : rowKey idx p.2 = some p.1 :=
        hkeys p ((List.mem_insertionSort r).1 hp)
      have hq' : rowKey idx q.2 = some q.1 :=
        hkeys q ((List.mem_insertionSort r).1 hq)
      obtain rfl : p.1 = x := Option.some.inj (hp'.symm.trans hx)
      obtain rfl : q.1 = y := Option.some.inj (hq'.symm.trans hy)
      exact hpq
    rw [rowsSortedDescBy, List.pairwise_map]
    exact hsorted'
  · intro c
    have hfil : (List.insertionSort r keyed).filter (fun p => p.1 == c)
        = keyed.filter (fun p => p.1 == c) := by
      have hsub0 : List.Sublist (keyed.filter (fun p => p.1 == c)) keyed :=
        List.filter_sublist _
      have hpw : (keyed.filter (fun p => p.1 == c)).Pairwise r := by
        apply List.pairwise_of_forall_mem_list
        intro a ha b hb
        have ha' : a.1 = c := by simpa using (List.mem_filter.1 ha).2
        have hb' : b.1 = c := by simpa using (List.mem_filter.1 hb).2
        rw [hr]
        simp only [ha', hb', le_refl]
      have hsub : List.Sublist (keyed.filter (fun p => p.1 == c))
          ((List.insertionSort r keyed).filter (fun p => p.1 == c)) := by
        have h1 := List.sublist_insertionSort hpw hsub0
        have h2 := h1.filter (fun p : Int × List String => p.1 == c)
        have h3 : (keyed.filter (fun p => p.1 == c)).filter (fun p => p.1 == c)
            = keyed.filter (fun p => p.1 == c) :=
          List.filter_eq_self.mpr (fun a ha => (List.mem_filter.1 ha).2)
        rwa [h3] at h2
      have hlen : ((List.insertionSort r keyed).filter (fun p => p.1 == c)).length
          = (keyed.filter (fun p => p.1 == c)).length :=
        ((List.perm_insertionSort r keyed).filter _).length_eq
      exact (hsub.eq_of_length hlen.symm).symm
    have hlift : ∀ (l : List (Int × List String)),
        (∀ p ∈ l, rowKey idx p.2 = some p.1) →
        (l.map (·.2)).filter (fun row => rowKey idx row == some c)
          = (l.filter (fun p => p.1 == c)).map (·.2) := by
      intro l hl
      rw [List.filter_map]
      congr 1
      apply List.filter_congr
      intro p hp
      have hp2 := hl p hp
      simp [Function.comp, hp2]
    rw [← hmap,
      hlift (List.insertionSort r keyed) (fun p hp => hkeys p ((List.mem_insertionSort r).1 hp)),
      hlift keyed hkeys, hfil]

theorem containsKey_eq_false_of_forall {l : List (String × α)} {k : String}
    (h : ∀ kv ∈ l, kv.1 ≠ k) : containsKey l k = false := by
  simp only [containsKey, List.any_eq_false]
  intro kv hm
  simpa using h kv hm

theorem string_append_cancel_left {a b c : String} (h : a ++ b = a ++ c) : b = c := by
  have h2 : a.data ++ b.data = a.data ++ c.data := congrArg String.data h
  have h3 : b.data = c.data := List.append_cancel_left h2
  cases b
  cases c
  exact congrArg String.mk h3

/-- Looking up the synthesized `number` attribute in a ranked record: the
record zips the prefixed headers (ending in `number`) with the trimmed row
(ending in the rank), so when the lengths agree the lookup returns the
rank. -/
theorem dictGet_ranked_value (hs0 : List String) (kpfx : String) (vals : List PyVal)
    (w : PyVal) (hnum : "number" ∉ hs0) (hlen : vals.length = hs0.length) :
    dictGet (((hs0 ++ ["number"]).map (fun h => kpfx ++ h)).zip (vals ++ [w]))
      (kpfx ++ "number") = some w := by
  rw [List.map_append, List.zip_append (by simp [hlen])]
  rw [dictGet_append]
  have hnone : dictGet ((hs0.map (fun h => kpfx ++ h)).zip vals) (kpfx ++ "number")
      = none := by
    apply dictGet_eq_none_of_containsKey_false
    apply containsKey_eq_false_of_forall
    intro kv hm he
    obtain ⟨h1, _⟩ := List.of_mem_zip hm
    obtain ⟨h0, hh0, heq⟩ := List.mem_map.1 h1
    rw [← heq] at he
    exact hnum (string_append_cancel_left he ▸ hh0)
  rw [hnone]
  simp [dictGet]

/-- The ranking loop assigns the `number` attribute `str(n + i)` to the row
at position `i` (counting the start value `n`; `process_file` starts at 1,
giving the 1-based rank). -/
theorem buildRankedPairs_number (keyIdx : Nat) (hs0 : List String) (excl : List Nat)
    (kpfx : String) (hnum : "number" ∉ hs0) :
    ∀ (rows : List (List String)) (n : Nat) (pairs : List (String × PyRecord)),
    buildRankedPairs keyIdx (hs0 ++ ["number"]) excl kpfx n rows = some pairs →
    (∀ r ∈ rows, (trim_list r excl).length = hs0.length) →
    ∀ i row, rows.get? i = some row →
      ∃ key rec, pairs.get? i = some (key, rec) ∧ row.get? keyIdx = some key ∧
        dictGet rec (kpfx ++ "number") = some (PyVal.str (toString (n + i))) := by
  intro rows
  induction rows with
  | nil =>
    intro n pairs _ _ i row hi
    simp at hi
  | cons row0 rest ih =>
    intro n pairs hb hlen i row hi
    rw [buildRankedPairs] at hb
    cases hg : row0.get? keyIdx with
    | none => rw [hg] at hb; exact absurd hb (by simp)
    | some key0 =>
      rw [hg] at hb
      cases ht : buildRankedPairs keyIdx (hs0 ++ ["number"]) excl kpfx (n + 1) rest with
      | none => rw [ht] at hb; exact absurd hb (by simp)
      | some tail =>
        rw [ht] at hb
        obtain rfl := Option.some.inj hb
        cases i with
        | zero =>
          obtain rfl : row0 = row := by simpa using hi
          refine ⟨key0, _, rfl, hg, ?_⟩
          have hlen0 : (trim_list row0 excl).length = hs0.length :=
            hlen row0 (List.mem_cons_self _ _)
          have := dictGet_ranked_value hs0 kpfx ((trim_list row0 excl).map PyVal.str)
            (PyVal.str (toString n)) hnum (by simpa using hlen0)
          simpa using this
        | succ j =>
          have hj : rest.get? j = some row := by simpa using hi
          obtain ⟨key, rec, hp, hk, hd⟩ := ih (n + 1) tail ht
            (fun r hm => hlen r (List.mem_cons_of_mem _ hm)) j row hj
          refine ⟨key, rec, by simpa using hp, hk, ?_⟩
          have harith : n + 1 + j = n + (j + 1) := by omega
          rwa [harith] at hd

/-- C6 counterexample: for surviving rows with counts `[10, 30, 20]`, the
claim says the `number` attributes are `[2, 1, 3]` respectively.  Running
`SUBTLEX.process_file` on such rows assigns descending ranks `[3, 1, 2]`:
the count-10 row is the smallest and receives number `'3'`, not `'2'`. -/
theorem subtlex_rank_example_refuted :
    ((SUBTLEX.process_file cexSProws).bind
        (fun d => (dictGet d "w10").bind (fun rec => dictGet rec "SUBTLEX-number")))
      = some (PyVal.str "3") ∧
    ((SUBTLEX.process_file cexSProws).bind
        (fun d => (dictGet d "w30").bind (fun rec => dictGet rec "SUBTLEX-number")))
      = some (PyVal.str "1") ∧
    ((SUBTLEX.process_file cexSProws).bind
        (fun d => (dictGet d "w20").bind (fun rec => dictGet rec "SUBTLEX-number")))
      = some (PyVal.str "2") ∧
    (some (PyVal.str "3") : Option PyVal) ≠ some (PyVal.str "2") :=
  ⟨by decide, by decide, by decide, by decide⟩

/-- C6 (amended): for both frequency-ranked parsers (SUBTLEX, key column 4;
LWC, key column 3), the sorted surviving rows are a permutation of the
input rows in descending numeric count order, rows with equal counts keep
their original relative order (stability), and the ranking loop gives the
row at sorted position `i` the `number` attribute `str(1 + i)` — so rows
with counts `[10, 30, 20]` receive number attributes `[3, 1, 2]`
respectively, not `[2, 1, 3]`. -/
theorem frequency_ranked_parser_spec
    (sprows ssorted lprows lsorted : List (List String))
    (hs : pySortByIntKeyDesc 4 sprows = some ssorted)
    (hl : pySortByIntKeyDesc 3 lprows = some lsorted) :
    (List.Perm ssorted sprows ∧ rowsSortedDescBy 4 ssorted ∧
      (∀ c : Int, ssorted.filter (fun r => rowKey 4 r == some c)
        = sprows.filter (fun r => rowKey 4 r == some c)) ∧
      ∀ pairs,
        buildRankedPairs 0 (trim_list SUBTLEX.headers SUBTLEX.excludedColumns ++ ["number"])
          SUBTLEX.excludedColumns "SUBTLEX-" 1 ssorted = some pairs →
        (∀ r ∈ ssorted, (trim_list r SUBTLEX.excludedColumns).length
          = (trim_list SUBTLEX.headers SUBTLEX.excludedColumns).length) →
        ∀ i row, ssorted.get? i = some row →
          ∃ key rec, pairs.get? i = some (key, rec) ∧ row.get? 0 = some key ∧
            dictGet rec "SUBTLEX-number" = some (PyVal.str (toString (1 + i)))) ∧
    (List.Perm lsorted lprows ∧ rowsSortedDescBy 3 lsorted ∧
      (∀ c : Int, lsorted.filter (fun r => rowKey 3 r == some c)
        = lprows.filter (fun r => rowKey 3 r == some c)) ∧
      ∀ pairs,
        buildRankedPairs 1 (trim_list LWCWords.headers LWCWords.excludedColumns ++ ["number"])
          LWCWords.excludedColumns "LWC-" 1 lsorted = some pairs →
        (∀ r ∈ lsorted, (trim_list r LWCWords.excludedColumns).length
          = (trim_list LWCWords.headers LWCWords.excludedColumns).length) →
        ∀ i row, lsorted.get? i = some row →
          ∃ key rec, pairs.get? i = some (key, rec) ∧ row.get? 1 = some key ∧
            dictGet rec "LWC-number" = some (PyVal.str (toString (1 + i)))) := by
  obtain ⟨hp1, hd1, hst1⟩ := pySortByIntKeyDesc_spec 4 sprows ssorted hs
  obtain ⟨hp2, hd2, hst2⟩ := pySortByIntKeyDesc_spec 3 lprows lsorted hl
  refine ⟨⟨hp1, hd1, hst1, ?_⟩, ⟨hp2, hd2, hst2, ?_⟩⟩
  · intro pairs hb hlen i row hi
    obtain ⟨key, rec, h1, h2, h3⟩ := buildRankedPairs_number 0
      (trim_list SUBTLEX.headers SUBTLEX.excludedColumns) SUBTLEX.excludedColumns
      "SUBTLEX-" (by decide) ssorted 1 pairs hb hlen i row hi
    refine ⟨key, rec, h1, h2, ?_⟩
    have he : ("SUBTLEX-" ++ "number" : String) = "SUBTLEX-number" := by decide
    rwa [he] at h3
  · intro pairs hb hlen i row hi
    obtain ⟨key, rec, h1, h2, h3⟩ := buildRankedPairs_number 1
      (trim_list LWCWords.headers LWCWords.excludedColumns) LWCWords.excludedColumns
      "LWC-" (by decide) lsorted 1 pairs hb hlen i row hi
    refine ⟨key, rec, h1, h2, ?_⟩
    have he : ("LWC-" ++ "number" : String) = "LWC-number" := by decide
    rwa [he] at h3

/-- Witness for `frequency_ranked_parser_spec` at the concrete inputs with
counts `[10, 30, 20]` (SUBTLEX) and `[5, 7]` (LWC). -/
theorem frequency_ranked_parser_witness :
    pySortByIntKeyDesc 4 cexSProws = some cexSSorted ∧
    pySortByIntKeyDesc 3 cexLProws = some cexLSorted ∧
    ((List.Perm cexSSorted cexSProws ∧ rowsSortedDescBy 4 cexSSorted ∧
      (∀ c : Int, cexSSorted.filter (fun r => rowKey 4 r == some c)
        = cexSProws.filter (fun r => rowKey 4 r == some c)) ∧
      ∀ pairs,
        buildRankedPairs 0 (trim_list SUBTLEX.headers SUBTLEX.excludedColumns ++ ["number"])
          SUBTLEX.excludedColumns "SUBTLEX-" 1 cexSSorted = some pairs →
        (∀ r ∈ cexSSorted, (trim_list r SUBTLEX.excludedColumns).length
          = (trim_list SUBTLEX.headers SUBTLEX.excludedColumns).length) →
        ∀ i row, cexSSorted.get? i = some row →
          ∃ key rec, pairs.get? i = some (key, rec) ∧ row.get? 0 = some key ∧
            dictGet rec "SUBTLEX-number" = some (PyVal.str (toString (1 + i)))) ∧
    (List.Perm cexLSorted cexLProws ∧ rowsSortedDescBy 3 cexLSorted ∧
      (∀ c : Int, cexLSorted.filter (fun r => rowKey 3 r == some c)
        = cexLProws.filter (fun r => rowKey 3 r == some c)) ∧
      ∀ pairs,
        buildRankedPairs 1 (trim_list LWCWords.headers LWCWords.excludedColumns ++ ["number"])
          LWCWords.excludedColumns "LWC-" 1 cexLSorted = some pairs →
        (∀ r ∈ cexLSorted, (trim_list r LWCWords.excludedColumns).length
          = (trim_list LWCWords.headers LWCWords.excludedColumns).length) →
        ∀ i row, cexLSorted.get? i = some row →
          ∃ key rec, pairs.get? i = some (key, rec) ∧ row.get? 1 = some key ∧
            dictGet rec "LWC-number" = some (PyVal.str (toString (1 + i))))) :=
  ⟨by decide, by decide,
    frequency_ranked_parser_spec cexSProws cexSSorted cexLProws cexLSorted
      (by decide) (by decide)⟩

/-- C7: for every well-formed dictionary-entry row `[t, s, p, d]` whose
first headword is non-empty and not a comment, the parser produces the
entry record (definition split on `/`, numbered-tone pronunciation
converted to diacritic form) indexed under the first headword, and — only
when the two headwords differ — also under the second headword. -/
theorem cedict_row_indexing (t s p d : String) (c : Char)
    (hc : t.data.head? = some c) (hcm : c ≠ '#') :
    CEDICT.process_file [[t, s, p, d]] =
      some (if t = s
        then [(t, cedictEntryRecord t s p d)]
        else [(t, cedictEntryRecord t s p d), (s, cedictEntryRecord t s p d)]) := by
  obtain ⟨cs, hcs⟩ : ∃ cs, t.data = c :: cs := by
    cases ht : t.data with
    | nil => rw [ht] at hc; exact absurd hc (by simp)
    | cons c' cs =>
      refine ⟨cs, ?_⟩
      rw [ht] at hc
      simp only [List.head?_cons, Option.some.injEq] at hc
      rw [hc]
  have hne : String.singleton c ≠ "#" := by
    intro he
    apply hcm
    have h2 : [c] = ['#'] := congrArg String.data he
    exact (List.cons.inj h2).1
  have hbe : (String.singleton c == "#") = false := beq_eq_false_iff_ne.mpr hne
  have h1g : ∀ v : PyRecord, (v.map Prod.fst).Nodup →
      update_dict [] [(t, v)] false false = [(t, v)] := by
    intro v hv
    have := @update_dict_disjoint false [(t, v)] []
      (fun kv _ => rfl) (by simp) (by simpa using hv)
    simpa using this
  by_cases hts : t = s
  · subst hts
    rw [CEDICT.process_file, CEDICT.process_file.go, if_neg (by simp),
      CEDICT.process_row, hcs]
    simp only [List.contains_cons, List.contains_nil, hbe, Bool.or_false,
      Bool.false_eq_true, if_false, ne_eq, not_true_eq_false]
    rw [h1g, CEDICT.process_file.go, if_pos trivial]
    · rfl
    · simp
  · have h2g : ∀ v w : PyRecord, (w.map Prod.fst).Nodup →
        update_dict [(t, v)] [(s, w)] false false = [(t, v), (s, w)] := by
      intro v w hw
      have := @update_dict_disjoint false [(s, w)] [(t, v)]
        (fun kv hm => by
          have he : kv = (s, w) := by simpa using hm
          subst he
          simp only [containsKey, List.any_cons, List.any_nil, Bool.or_false,
            beq_eq_false_iff_ne, ne_eq]
          exact fun hh => hts hh)
        (by simp) (by simpa using hw)
      simpa using this
    rw [CEDICT.process_file, CEDICT.process_file.go, if_neg (by simp),
      CEDICT.process_row, hcs]
    simp only [List.contains_cons, List.contains_nil, hbe, Bool.or_false,
      Bool.false_eq_true, if_false, ne_eq, hts, not_false_eq_true, if_true]
    rw [h1g, h2g, CEDICT.process_file.go] <;> simp [cedictEntryRecord]

/-- Witness for `cedict_row_indexing` at the spec's concrete line
`長 长 [chang2] /length/long/`, whose four-field row (as the line-splitting
regex of `CEDICT.get_rows` parses it; the repository's own test pins that
row shape) is `['長', '长', 'chang2', 'length/long']`: pronunciation
`cháng`, definition list `['length', 'long']`, and the record reachable
under both `長` and `长`. -/
theorem cedict_row_indexing_witness :
    ("長" : String).data.head? = some '長' ∧ ('長' : Char) ≠ '#' ∧
    CEDICT.process_file [["長", "长", "chang2", "length/long"]]
      = some [("長", [("CEDICT-entry", PyVal.list [PyVal.list [PyVal.str "長",
            PyVal.str "长", PyVal.str "cháng",
            PyVal.list [PyVal.str "length", PyVal.str "long"]]])]),
          ("长", [("CEDICT-entry", PyVal.list [PyVal.list [PyVal.str "長",
            PyVal.str "长", PyVal.str "cháng",
            PyVal.list [PyVal.str "length", PyVal.str "long"]]])])] :=
  ⟨by decide, by decide,
    (cedict_row_indexing "長" "长" "chang2" "length/long" '長'
      (by decide) (by decide)).trans (by decide)⟩
